import Mathlib

/-!
Shallow embedding of the broadcast chat server in `examples/chat.rs`.

The embedding follows the source:
  * `Message` with its three variants and its `Display` rendering;
  * the shared registry `ChatState` (`DashMap<SocketAddr, Sender<Arc<Message>>>`)
    as an association list from client ids to the state of the peer's bounded
    outbound queue;
  * `ChatState.broadcast`, `ChatState.add_peer` and entry removal;
  * `handle_connection`, with the inbound byte stream after `LinesCodec`
    framing modelled as the list of `stream.next()` results (a decoded line or
    a codec error per element; the end of the list is the stream ending);
  * the per-peer writer task spawned by `add_peer`, as a function of its
    receive trace.
-/

namespace Chat

/-- A client's identity: the connection's remote `SocketAddr`, used as the
registry key.  Modelled abstractly as a natural number. -/
abbrev ClientId := Nat

/-- Capacity of each peer's bounded outbound queue, from
`channel::<Arc<Message>>(MSG_SIZE)` with `const MSG_SIZE: usize = 1024`. -/
def MSG_SIZE : Nat := 1024

/-- The `Message` enum: `Join(String)`, `Left(String)`,
`Text { user: String, content: String }`. -/
inductive Message where
  | Join : String → Message
  | Left : String → Message
  | Text : (user : String) → (content : String) → Message
deriving DecidableEq, Repr

/-- `Message::user_join`: wraps the username in `Message::Join`. -/
def Message.user_join (username : String) : Message :=
  Message.Join username

/-- `Message::user_left`: wraps the username in `Message::Left`. -/
def Message.user_left (username : String) : Message :=
  Message.Left username

/-- `Message::new_text`: builds `Message::Text` from the username and the
line's content. -/
def Message.new_text (username : String) (content : String) : Message :=
  Message.Text username content

/-- The `impl fmt::Display for Message`: one wire line per message,
`[<name> JOINED]`, `[<name> LEFT]` or `[<user>]:<content>`. -/
def Message.display : Message → String
  | Message.Join name => "[" ++ name ++ " JOINED]"
  | Message.Left name => "[" ++ name ++ " LEFT]"
  | Message.Text user content => "[" ++ user ++ "]:" ++ content

/-- The registry's view of one peer's bounded mpsc channel: the messages
enqueued so far (in order) and whether the channel is closed, i.e. the
consumer side — the writer task's receiver — is gone.  Tokio's bounded
`Sender::send(value).await` fails exactly when the channel is closed; when
the queue is merely full the producer suspends until capacity is available
and then enqueues, which a sequential embedding renders as success. -/
structure PeerQueue where
  closed : Bool
  pending : List Message
deriving DecidableEq, Repr

/-- A freshly created channel endpoint: open, nothing enqueued. -/
def PeerQueue.fresh : PeerQueue :=
  { closed := false, pending := [] }

/-- Semantics of `Sender::send(msg).await` on the bounded channel: an error
exactly when the channel is closed, otherwise the message is enqueued (after
suspending if the queue was at capacity `MSG_SIZE`). -/
def PeerQueue.send (q : PeerQueue) (m : Message) : Except Unit PeerQueue :=
  if q.closed then Except.error ()
  else Except.ok { q with pending := q.pending ++ [m] }

/-- The shared chat state: `peers: DashMap<SocketAddr, Sender<Arc<Message>>>`,
modelled as an association list from client ids to queue states. -/
structure ChatState where
  peers : List (ClientId × PeerQueue)
deriving DecidableEq, Repr

/-- `ChatState::new`: an empty registry. -/
def ChatState.new : ChatState :=
  { peers := [] }

/-- Lookup of the entry for a key in an association list (the map read on
the registry's underlying `DashMap`). -/
def lookupList (l : List (ClientId × PeerQueue)) (id : ClientId) :
    Option PeerQueue :=
  match l with
  | [] => none
  | (k, q) :: rest => if k = id then some q else lookupList rest id

/-- The registry entry for `id`, if present. -/
def ChatState.lookup (s : ChatState) (id : ClientId) : Option PeerQueue :=
  lookupList s.peers id

/-- The body of `ChatState::broadcast`'s for-loop for a single entry under
the completed-cleanup reading of the failure branch: the entry whose key
equals the origin is skipped unchanged (`continue`); otherwise `send` is
attempted, and on failure the entry is dropped from the result, as the
`self.peers.remove(peer.key())` in that branch intends.  On any state a run
can reach no registered channel is closed (a writer task drops its receiver
only after the registry's sender is gone), so the failure branch is never
taken and this is exact; the literal semantics of the failure branch — the
remove deadlocks on the shard guard held by the iterator — is modelled by
`broadcastStep` below. -/
def broadcastEntry (m : Message) (addr : ClientId) :
    ClientId × PeerQueue → Option (ClientId × PeerQueue)
  | (id, q) =>
    if id = addr then some (id, q)
    else
      match q.send m with
      | Except.ok q2 => some (id, q2)
      | Except.error _ => none

/-- `ChatState::broadcast(msg, addr)` under the completed-cleanup reading of
its failure branch: iterate the entries, skip the origin, send to every
other peer, prune entries whose send failed, and return `Ok(())`.  On every
state reachable in a run — no registered channel closed — this agrees with
the literal loop semantics `broadcastRun` (lemma `broadcastStep_all_open`);
on a state with a closed non-origin entry the literal loop instead
deadlocks, which `broadcastRun` models. -/
def ChatState.broadcast (s : ChatState) (m : Message) (addr : ClientId) :
    ChatState × Except Unit Unit :=
  ({ peers := s.peers.filterMap (broadcastEntry m addr) }, Except.ok ())

/-- Outcome of one literal execution of `ChatState::broadcast`: either the
loop finished and the call returned `Ok(())` with the registry in the given
state, or the call blocked forever — the deadlocked constructor records the
registry contents at the moment of the lock-up. -/
inductive BroadcastOutcome where
  | returned : ChatState → BroadcastOutcome
  | deadlocked : ChatState → BroadcastOutcome
deriving DecidableEq, Repr

/-- The for-loop of `ChatState::broadcast` taken literally, cursor by
cursor; `acc` holds the entries already iterated.  The origin's entry is
skipped (`continue`); a successful send appends the message to the target's
queue and the loop advances; on the first failing send the code executes
`self.peers.remove(peer.key())` while `peer` — a `RefMulti` obtained from
`self.peers.iter()` — still holds a read guard on that key's shard, and
`DashMap::remove` then waits forever for the shard's write lock: the call
deadlocks, the failing entry is never removed, the entries not yet iterated
never receive the message, and `Ok(())` is never returned. -/
def broadcastStep (m : Message) (addr : ClientId) :
    List (ClientId × PeerQueue) → List (ClientId × PeerQueue) →
    BroadcastOutcome
  | acc, [] => BroadcastOutcome.returned { peers := acc }
  | acc, (id, q) :: rest =>
    if id = addr then broadcastStep m addr (acc ++ [(id, q)]) rest
    else
      match q.send m with
      | Except.ok q2 => broadcastStep m addr (acc ++ [(id, q2)]) rest
      | Except.error _ =>
        BroadcastOutcome.deadlocked { peers := acc ++ (id, q) :: rest }

/-- One call of `ChatState::broadcast(msg, addr)` with the failure branch's
remove-while-iterating deadlock modelled literally. -/
def broadcastRun (s : ChatState) (m : Message) (addr : ClientId) :
    BroadcastOutcome :=
  broadcastStep m addr [] s.peers

/-- Removal of the entry for `id` (`self.peers.remove(&addr)` /
`self.peers.remove(peer.key())` on the `DashMap`). -/
def ChatState.removePeer (s : ChatState) (id : ClientId) : ChatState :=
  { peers := s.peers.filter (fun p => p.1 != id) }

/-- The inbound line stream after `LinesCodec` framing: each element is one
`stream.next()` result — `Except.ok line` for a decoded line, `Except.error`
for a codec error; the end of the list is `next()` returning `None` (end of
stream). -/
abbrev Inbound := List (Except Unit String)

/-- The `Peer` struct returned by `add_peer`: the negotiated username and
the read half of the split stream. -/
structure Peer where
  username : String
  stream : Inbound
deriving Repr

/-- `ChatState::add_peer(addr, username, stream)`: create a fresh bounded
channel of capacity `MSG_SIZE`, insert its producer at `addr`
(`DashMap::insert` replaces and drops any previous producer for that key),
split the stream, spawn the writer task (modelled separately by
`writerRun`), and return the `Peer` holding the username and the read half.
Insertion into the association list removes any previous binding of the key
and puts the fresh entry in front, the map semantics of `insert`. -/
def ChatState.add_peer (s : ChatState) (addr : ClientId) (username : String)
    (stream : Inbound) : ChatState × Peer :=
  ({ peers := (addr, PeerQueue.fresh) :: (s.peers.filter (fun p => p.1 != addr)) },
   { username := username, stream := stream })

/-- The post-registration read loop of `handle_connection`: each decoded
line is broadcast as `Text` (excluding self, with `?` on the result); a
codec error logs and breaks; the stream ending ends the loop. -/
def readLoop (username : String) (addr : ClientId) :
    Inbound → ChatState → ChatState × Except Unit Unit
  | [], s => (s, Except.ok ())
  | Except.error _ :: _, s => (s, Except.ok ())
  | Except.ok line :: rest, s =>
    let b := s.broadcast (Message.new_text username line) addr
    match b.2 with
    | Except.error e => (b.1, Except.error e)
    | Except.ok _ => readLoop username addr rest b.1

/-- `handle_connection(stream, addr, state)`.  `promptOk` is whether the
initial `stream.send("Enter your name:").await?` succeeded (its failure
returns the error).  Then: await the first line as the username — stream end
or codec error aborts with `Ok(())` before any registration or broadcast;
otherwise register via `add_peer`, broadcast `Join` (with `?`), run the read
loop, broadcast `Left` (with `?`), and remove this connection's entry. -/
def handle_connection (promptOk : Bool) (inbound : Inbound) (addr : ClientId)
    (s : ChatState) : ChatState × Except Unit Unit :=
  if promptOk = false then (s, Except.error ())
  else
    match inbound with
    | [] => (s, Except.ok ())
    | Except.error _ :: _ => (s, Except.ok ())
    | Except.ok username :: rest =>
      let reg := s.add_peer addr username rest
      let b1 := reg.1.broadcast (Message.user_join reg.2.username) addr
      match b1.2 with
      | Except.error e => (b1.1, Except.error e)
      | Except.ok _ =>
        let lp := readLoop reg.2.username addr reg.2.stream b1.1
        match lp.2 with
        | Except.error e => (lp.1, Except.error e)
        | Except.ok _ =>
          let b2 := lp.1.broadcast (Message.user_left reg.2.username) addr
          match b2.2 with
          | Except.error e => (b2.1, Except.error e)
          | Except.ok _ => (b2.1.removePeer addr, Except.ok ())

/-- The writer task spawned in `add_peer`, as a function of its receive
trace: each element is one message obtained from `rx.recv().await` paired
with whether the subsequent `sender.send(content).await` (the transport
write) succeeded; the end of the trace is `recv()` returning `None` — the
queue is closed — which is the only exit of the loop.  A failed write is
logged and the loop continues.  The result is the sequence of line contents
the task formatted and handed to the transport, in order. -/
def writerRun : List (Message × Bool) → List String
  | [] => []
  | (m, _writeOk) :: rest => m.display :: writerRun rest

/-! Helper lemmas about the registry list operations. -/

theorem broadcastEntry_eq (m : Message) (addr id : ClientId) (q : PeerQueue) :
    broadcastEntry m addr (id, q)
      = if id = addr then some (id, q)
        else if q.closed then none
        else some (id, { q with pending := q.pending ++ [m] }) := by
  simp only [broadcastEntry, PeerQueue.send]
  by_cases h : id = addr <;> by_cases hc : q.closed <;> simp [h, hc]

theorem broadcastStep_all_open (m : Message) (addr : ClientId)
    (l : List (ClientId × PeerQueue))
    (h : ∀ p ∈ l, p.1 ≠ addr → p.2.closed = false) :
    ∀ acc, broadcastStep m addr acc l
      = BroadcastOutcome.returned
          { peers := acc ++ l.filterMap (broadcastEntry m addr) } := by
  induction l with
  | nil => intro acc; simp [broadcastStep]
  | cons p rest ih =>
    intro acc
    obtain ⟨id, q⟩ := p
    have hrest : ∀ p ∈ rest, p.1 ≠ addr → p.2.closed = false :=
      fun p hp => h p (List.mem_cons_of_mem _ hp)
    by_cases hid : id = addr
    · rw [show broadcastStep m addr acc ((id, q) :: rest)
          = broadcastStep m addr (acc ++ [(id, q)]) rest from by
            simp [broadcastStep, hid]]
      rw [ih hrest, List.filterMap_cons, broadcastEntry_eq, if_pos hid]
      simp
    · have hopen : q.closed = false := h (id, q) (List.mem_cons_self _ _) hid
      rw [show broadcastStep m addr acc ((id, q) :: rest)
          = broadcastStep m addr
              (acc ++ [(id, { q with pending := q.pending ++ [m] })]) rest from by
            simp [broadcastStep, hid, PeerQueue.send, hopen]]
      rw [ih hrest, List.filterMap_cons, broadcastEntry_eq, if_neg hid,
        if_neg (by simp [hopen])]
      simp

theorem lookupList_nil (id : ClientId) : lookupList [] id = none := rfl

theorem lookupList_cons (k id : ClientId) (q : PeerQueue)
    (rest : List (ClientId × PeerQueue)) :
    lookupList ((k, q) :: rest) id
      = if k = id then some q else lookupList rest id := rfl

theorem lookupList_eq_none_of_not_mem (l : List (ClientId × PeerQueue))
    (id : ClientId) (h : id ∉ l.map Prod.fst) : lookupList l id = none := by
  induction l with
  | nil => rfl
  | cons p rest ih =>
    obtain ⟨k, q⟩ := p
    simp only [List.map_cons, List.mem_cons] at h
    push_neg at h
    rw [lookupList_cons, if_neg (fun hk => h.1 hk.symm), ih h.2]

theorem broadcast_keys_sublist (m : Message) (addr : ClientId)
    (l : List (ClientId × PeerQueue)) :
    List.Sublist ((l.filterMap (broadcastEntry m addr)).map Prod.fst)
      (l.map Prod.fst) := by
  induction l with
  | nil => simp
  | cons p rest ih =>
    obtain ⟨k, q⟩ := p
    rw [List.filterMap_cons, broadcastEntry_eq]
    by_cases hk : k = addr
    · simp only [if_pos hk, List.map_cons]
      exact List.Sublist.cons₂ _ ih
    · by_cases hc : q.closed
      · simp only [if_neg hk, if_pos hc, List.map_cons]
        exact List.Sublist.cons _ ih
      · simp only [if_neg hk, if_neg hc, List.map_cons]
        exact List.Sublist.cons₂ _ ih

theorem broadcast_keys_nodup (m : Message) (addr : ClientId)
    (l : List (ClientId × PeerQueue)) (h : (l.map Prod.fst).Nodup) :
    ((l.filterMap (broadcastEntry m addr)).map Prod.fst).Nodup :=
  (broadcast_keys_sublist m addr l).nodup h

theorem broadcast_lookupList_self (m : Message) (addr : ClientId)
    (l : List (ClientId × PeerQueue)) :
    lookupList (l.filterMap (broadcastEntry m addr)) addr = lookupList l addr := by
  induction l with
  | nil => rfl
  | cons p rest ih =>
    obtain ⟨k, q⟩ := p
    rw [List.filterMap_cons, broadcastEntry_eq]
    by_cases hk : k = addr
    · rw [if_pos hk, lookupList_cons, lookupList_cons, if_pos hk, if_pos hk]
    · by_cases hc : q.closed
      · rw [if_neg hk, if_pos hc, lookupList_cons, if_neg hk, ih]
      · rw [if_neg hk, if_neg hc, lookupList_cons, lookupList_cons,
          if_neg hk, if_neg hk, ih]

theorem broadcast_lookupList_other (m : Message) (addr j : ClientId)
    (l : List (ClientId × PeerQueue)) (hnd : (l.map Prod.fst).Nodup)
    (hne : j ≠ addr) :
    lookupList (l.filterMap (broadcastEntry m addr)) j
      = (lookupList l j).bind
          (fun q => if q.closed then none
                    else some { q with pending := q.pending ++ [m] }) := by
  induction l with
  | nil => rfl
  | cons p rest ih =>
    obtain ⟨k, q⟩ := p
    simp only [List.map_cons, List.nodup_cons] at hnd
    rw [List.filterMap_cons, broadcastEntry_eq]
    by_cases hk : k = addr
    · have hkj : ¬(k = j) := fun h => hne (h.symm.trans hk)
      rw [if_pos hk, lookupList_cons, lookupList_cons, if_neg hkj, if_neg hkj]
      exact ih hnd.2
    · by_cases hc : q.closed
      · rw [if_neg hk, if_pos hc]
        by_cases hkj : k = j
        · subst hkj
          rw [lookupList_cons, if_pos rfl,
            lookupList_eq_none_of_not_mem _ _
              (fun hmem => hnd.1 ((broadcast_keys_sublist m addr rest).subset hmem))]
          simp [hc]
        · rw [lookupList_cons, if_neg hkj]
          exact ih hnd.2
      · by_cases hkj : k = j
        · rw [if_neg hk, if_neg hc, lookupList_cons, lookupList_cons,
            if_pos hkj, if_pos hkj]
          simp [hc]
        · rw [if_neg hk, if_neg hc, lookupList_cons, lookupList_cons,
            if_neg hkj, if_neg hkj]
          exact ih hnd.2

theorem broadcast_lookupList_getLast (m : Message) (addr j : ClientId)
    (l : List (ClientId × PeerQueue)) (hne : j ≠ addr) (qf : PeerQueue)
    (h : lookupList (l.filterMap (broadcastEntry m addr)) j = some qf) :
    qf.pending.getLast? = some m := by
  induction l with
  | nil => cases h
  | cons p rest ih =>
    obtain ⟨k, q⟩ := p
    rw [List.filterMap_cons, broadcastEntry_eq] at h
    by_cases hk : k = addr
    · rw [if_pos hk, lookupList_cons,
        if_neg (fun hkj => hne (hkj.symm.trans hk))] at h
      exact ih h
    · by_cases hc : q.closed
      · rw [if_neg hk, if_pos hc] at h
        exact ih h
      · rw [if_neg hk, if_neg hc, lookupList_cons] at h
        by_cases hkj : k = j
        · rw [if_pos hkj] at h
          injection h with h
          subst h
          exact List.getLast?_concat _
        · rw [if_neg hkj] at h
          exact ih h

theorem removeList_lookup_self (l : List (ClientId × PeerQueue))
    (id : ClientId) :
    lookupList (l.filter (fun p => p.1 != id)) id = none := by
  induction l with
  | nil => rfl
  | cons p rest ih =>
    obtain ⟨k, q⟩ := p
    by_cases hk : k = id
    · simp only [List.filter_cons, hk, bne_self_eq_false, Bool.false_eq_true,
        if_false]
      exact ih
    · simp only [List.filter_cons]
      rw [if_pos (by simp [bne_iff_ne, hk]), lookupList_cons, if_neg hk]
      exact ih

theorem removeList_lookup_other (l : List (ClientId × PeerQueue))
    (id j : ClientId) (h : j ≠ id) :
    lookupList (l.filter (fun p => p.1 != id)) j = lookupList l j := by
  induction l with
  | nil => rfl
  | cons p rest ih =>
    obtain ⟨k, q⟩ := p
    by_cases hk : k = id
    · simp only [List.filter_cons, hk, bne_self_eq_false, Bool.false_eq_true,
        if_false]
      rw [lookupList_cons, if_neg (fun hkj => h hkj.symm), ih]
    · simp only [List.filter_cons]
      rw [if_pos (by simp [bne_iff_ne, hk]), lookupList_cons, lookupList_cons]
      by_cases hkj : k = j
      · rw [if_pos hkj, if_pos hkj]
      · rw [if_neg hkj, if_neg hkj, ih]

theorem removeList_idem (l : List (ClientId × PeerQueue)) (id : ClientId) :
    (l.filter (fun p => p.1 != id)).filter (fun p => p.1 != id)
      = l.filter (fun p => p.1 != id) :=
  List.filter_eq_self.mpr (fun _ ha => (List.mem_filter.mp ha).2)

theorem readLoop_ok (username : String) (addr : ClientId) (inb : Inbound)
    (s : ChatState) : (readLoop username addr inb s).2 = Except.ok () := by
  induction inb generalizing s with
  | nil => rfl
  | cons e rest ih =>
    cases e with
    | error u => rfl
    | ok line => exact ih _

theorem handle_connection_reduce (s : ChatState) (addr : ClientId)
    (u : String) (rest : Inbound) :
    handle_connection true (Except.ok u :: rest) addr s
      = (((readLoop u addr rest
            ((s.add_peer addr u rest).1.broadcast
              (Message.user_join u) addr).1).1.broadcast
            (Message.user_left u) addr).1.removePeer addr,
         Except.ok ()) := by
  have hsplit : readLoop u addr rest
        ((s.add_peer addr u rest).1.broadcast (Message.user_join u) addr).1
      = ((readLoop u addr rest
            ((s.add_peer addr u rest).1.broadcast
              (Message.user_join u) addr).1).1,
         Except.ok ()) := by
    rw [← readLoop_ok u addr rest
      ((s.add_peer addr u rest).1.broadcast (Message.user_join u) addr).1]
  simp only [ChatState.add_peer, ChatState.broadcast] at hsplit
  simp only [handle_connection, ChatState.add_peer, ChatState.broadcast,
    reduceIte]
  rw [hsplit]
  rfl

theorem lookupList_eq_some_mem_keys (l : List (ClientId × PeerQueue))
    (id : ClientId) (q : PeerQueue) (h : lookupList l id = some q) :
    id ∈ l.map Prod.fst := by
  induction l with
  | nil => cases h
  | cons p rest ih =>
    obtain ⟨k, qq⟩ := p
    rw [lookupList_cons] at h
    by_cases hk : k = id
    · exact List.mem_cons.mpr (Or.inl hk.symm)
    · rw [if_neg hk] at h
      exact List.mem_cons.mpr (Or.inr (ih h))

theorem removeList_absent (l : List (ClientId × PeerQueue)) (id : ClientId)
    (h : lookupList l id = none) : l.filter (fun p => p.1 != id) = l := by
  induction l with
  | nil => rfl
  | cons p rest ih =>
    obtain ⟨k, q⟩ := p
    rw [lookupList_cons] at h
    by_cases hk : k = id
    · rw [if_pos hk] at h
      cases h
    · rw [if_neg hk] at h
      rw [List.filter_cons, if_pos (by simp [bne_iff_ne, hk]), ih h]

/-! Concrete registries used by the witnesses. -/

/-- A registry with one healthy peer (id 1) and one stale peer (id 2, its
writer gone). -/
def twoPeerState : ChatState :=
  { peers := [(1, { closed := false, pending := [] }),
              (2, { closed := true, pending := [] })] }

/-- A registry with a single healthy peer at id 1 with an empty queue. -/
def onePeerState : ChatState :=
  { peers := [(1, { closed := false, pending := [] })] }

/-- A registry with a stale producer already registered at id 0 and a
healthy peer at id 1. -/
def stalePeerState : ChatState :=
  { peers := [(0, { closed := true, pending := [Message.Join "old"] }),
              (1, { closed := false, pending := [] })] }

/-- A registry whose single other peer has an open queue that is exactly at
the channel capacity: MSG_SIZE pending messages. -/
def fullPeerState : ChatState :=
  { peers := [(1, { closed := false,
                    pending := List.replicate MSG_SIZE (Message.Join "bob") })] }

/-! The claims. -/

/-- C1: ChatState::broadcast never delivers to the registry entry whose key
equals the excluding client id — the for-loop skips it with `continue` — so
for every state, message and origin, the origin's own entry (and hence its
outbound queue) is left exactly as it was. -/
theorem broadcast_excludes_origin (s : ChatState) (m : Message)
    (addr : ClientId) :
    (s.broadcast m addr).1.lookup addr = s.lookup addr :=
  broadcast_lookupList_self m addr s.peers

/-- C2 names the intended behavior, but the code's failure path deadlocks:
at the failing input — a registry with healthy peer 1 and stale (closed)
peer 2, origin 0 — the literal broadcast loop delivers to peer 1 and then
blocks forever inside `self.peers.remove(peer.key())` on peer 2's entry,
so the entry is never removed, `Ok(())` is never returned, and entries
after the failing one would never be reached. -/
theorem broadcast_peer_failure_deadlocks :
    broadcastRun twoPeerState (Message.new_text "alice" "hi") 0
      = BroadcastOutcome.deadlocked
          { peers := [(1, { closed := false,
                            pending := [Message.new_text "alice" "hi"] }),
                      (2, { closed := true, pending := [] })] } := rfl

/-- C3 (amended): the enqueue onto a target peer's bounded outbound queue
fails exactly when the peer's channel is closed (its consumer is gone); a
full-but-open queue is not a failure — the producer suspends until there is
capacity and the message is enqueued, so fullness never triggers the
failure branch.  When an enqueue does fail, the loop's attempt to remove
the entry deadlocks on the shard guard held by the iterator: the call locks
up with the failing entry still present and the remaining entries
undelivered, instead of pruning the entry and moving on. -/
theorem enqueue_failure_iff_closed (q : PeerQueue) (m : Message)
    (acc rest : List (ClientId × PeerQueue)) (addr id : ClientId) :
    (q.send m = Except.error () ↔ q.closed = true) ∧
    (q.closed = false →
      q.send m = Except.ok { closed := false, pending := q.pending ++ [m] }) ∧
    (id ≠ addr → q.closed = true →
      broadcastStep m addr acc ((id, q) :: rest)
        = BroadcastOutcome.deadlocked { peers := acc ++ (id, q) :: rest }) := by
  refine ⟨?_, ?_, ?_⟩
  · cases hc : q.closed <;> simp [PeerQueue.send, hc]
  · intro hc
    simp [PeerQueue.send, hc]
  · intro hid hc
    simp [broadcastStep, PeerQueue.send, hid, hc]

/-- Witness for C3 (amended): a closed queue's send fails; a full open queue
(MSG_SIZE pending messages) enqueues instead of failing; the loop deadlocks
with the closed entry retained. -/
theorem enqueue_failure_iff_closed_witness :
    (PeerQueue.send { closed := true, pending := [] } (Message.Join "alice")
        = Except.error ()) ∧
    (PeerQueue.send
        { closed := false,
          pending := List.replicate MSG_SIZE (Message.Join "bob") }
        (Message.Join "alice")
      = Except.ok { closed := false,
                    pending := List.replicate MSG_SIZE (Message.Join "bob")
                      ++ [Message.Join "alice"] }) ∧
    broadcastStep (Message.Join "alice") 0 []
        [(2, { closed := true, pending := [] })]
      = BroadcastOutcome.deadlocked
          { peers := [(2, { closed := true, pending := [] })] } := by
  obtain ⟨h1, -, h3⟩ := enqueue_failure_iff_closed
    { closed := true, pending := [] } (Message.Join "alice") [] [] 0 2
  obtain ⟨-, h2, -⟩ := enqueue_failure_iff_closed
    { closed := false,
      pending := List.replicate MSG_SIZE (Message.Join "bob") }
    (Message.Join "alice") [] [] 0 2
  exact ⟨h1.mpr rfl, h2 rfl, h3 (by decide) rfl⟩

/-- Counterexample to C3 as stated: a peer whose open queue is full — at the
channel capacity MSG_SIZE — is not removed by the broadcast; the send waits
for space and enqueues, and the entry survives the call with the message
appended. -/
theorem full_queue_is_not_removed :
    (fullPeerState.broadcast (Message.new_text "alice" "hi") 0).1.lookup 1
      = some { closed := false,
               pending := List.replicate MSG_SIZE (Message.Join "bob")
                 ++ [Message.new_text "alice" "hi"] } ∧
    (fullPeerState.broadcast (Message.new_text "alice" "hi") 0).1.lookup 1
      ≠ none := by
  have h : (fullPeerState.broadcast (Message.new_text "alice" "hi") 0).1.lookup 1
      = some { closed := false,
               pending := List.replicate MSG_SIZE (Message.Join "bob")
                 ++ [Message.new_text "alice" "hi"] } := rfl
  refine ⟨h, ?_⟩
  rw [h]
  exact Option.some_ne_none _

theorem afterLeft_getLast (Y : ChatState) (addr j : ClientId) (u : String)
    (qf : PeerQueue)
    (h : ((Y.broadcast (Message.user_left u) addr).1.removePeer addr).lookup j
          = some qf) :
    qf.pending.getLast? = some (Message.user_left u) := by
  by_cases hj : j = addr
  · rw [hj] at h
    have h2 : lookupList
        ((Y.broadcast (Message.user_left u) addr).1.peers.filter
          (fun p => p.1 != addr)) addr = some qf := h
    rw [removeList_lookup_self] at h2
    cases h2
  · refine broadcast_lookupList_getLast (Message.user_left u) addr j
      Y.peers hj qf ?_
    have h2 : lookupList
        ((Y.broadcast (Message.user_left u) addr).1.peers.filter
          (fun p => p.1 != addr)) j = some qf := h
    rw [removeList_lookup_other _ addr j hj] at h2
    exact h2

/-- C4: whenever the post-registration read loop exits — the remaining
inbound trace is arbitrary, so this covers both stream end and decode
error — the handler returns Ok, every entry still present in the registry
afterwards has Left{username} as the last message enqueued on its queue,
and the handler's own entry has been removed. -/
theorem handler_broadcasts_left_then_removes (s : ChatState)
    (addr : ClientId) (u : String) (rest : Inbound) :
    (handle_connection true (Except.ok u :: rest) addr s).2 = Except.ok () ∧
    (handle_connection true (Except.ok u :: rest) addr s).1.lookup addr
        = none ∧
    ∀ j qf,
      (handle_connection true (Except.ok u :: rest) addr s).1.lookup j
          = some qf →
      qf.pending.getLast? = some (Message.user_left u) := by
  rw [handle_connection_reduce]
  exact ⟨rfl, removeList_lookup_self _ addr,
    fun j qf h => afterLeft_getLast _ addr j u qf h⟩

/-- Witness for C4: alice joins a registry holding one healthy peer, sends
one line and disconnects; the surviving peer's queue ends with the Left
message and alice's entry is gone. -/
theorem handler_broadcasts_left_then_removes_witness :
    (handle_connection true [Except.ok "alice", Except.ok "hi"] 0
        onePeerState).2 = Except.ok () ∧
    (handle_connection true [Except.ok "alice", Except.ok "hi"] 0
        onePeerState).1.lookup 0 = none ∧
    ({ closed := false,
       pending := [Message.user_join "alice", Message.new_text "alice" "hi",
                   Message.user_left "alice"] } : PeerQueue).pending.getLast?
      = some (Message.user_left "alice") := by
  obtain ⟨h1, h2, h3⟩ :=
    handler_broadcasts_left_then_removes onePeerState 0 "alice"
      [Except.ok "hi"]
  exact ⟨h1, h2, h3 1 _ rfl⟩

/-- C5: if the inbound stream ends or yields a decode error before the
username line, the handler aborts with the state unchanged — no peer is
registered, nothing is broadcast — and returns Ok. -/
theorem no_username_aborts_silently (s : ChatState) (addr : ClientId)
    (rest : Inbound) :
    handle_connection true [] addr s = (s, Except.ok ()) ∧
    handle_connection true (Except.error () :: rest) addr s
      = (s, Except.ok ()) :=
  ⟨rfl, rfl⟩

/-- C6: the wire rendering of each message variant, for every username and
content string. -/
theorem message_display_forms (u c : String) :
    (Message.user_join u).display = "[" ++ u ++ " JOINED]" ∧
    (Message.user_left u).display = "[" ++ u ++ " LEFT]" ∧
    (Message.new_text u c).display = "[" ++ u ++ "]:" ++ c :=
  ⟨rfl, rfl, rfl⟩

/-- C7: removal deletes the entry for the id, is idempotent, leaves every
other id's entry unchanged, and on an id that is absent it is a no-op. -/
theorem remove_is_idempotent (s : ChatState) (id j : ClientId) :
    (s.removePeer id).lookup id = none ∧
    (s.removePeer id).removePeer id = s.removePeer id ∧
    (j ≠ id → (s.removePeer id).lookup j = s.lookup j) ∧
    (s.lookup id = none → s.removePeer id = s) := by
  refine ⟨removeList_lookup_self _ id,
    congrArg ChatState.mk (removeList_idem s.peers id),
    fun h => removeList_lookup_other _ id j h,
    fun h => ?_⟩
  have : s.peers.filter (fun p => p.1 != id) = s.peers :=
    removeList_absent s.peers id h
  calc s.removePeer id = ChatState.mk (s.peers.filter (fun p => p.1 != id)) := rfl
    _ = ChatState.mk s.peers := congrArg ChatState.mk this
    _ = s := rfl

/-- Witness for C7: removing the absent id 2 from the one-peer registry is a
no-op that leaves peer 1 untouched. -/
theorem remove_is_idempotent_witness :
    (onePeerState.removePeer 2).lookup 2 = none ∧
    (onePeerState.removePeer 2).removePeer 2 = onePeerState.removePeer 2 ∧
    (onePeerState.removePeer 2).lookup 1 = onePeerState.lookup 1 ∧
    onePeerState.removePeer 2 = onePeerState := by
  obtain ⟨h1, h2, h3, h4⟩ := remove_is_idempotent onePeerState 2 1
  exact ⟨h1, h2, h3 (by decide), h4 rfl⟩

/-- C8: two lines broadcast in order from the same handler are enqueued in
that order into every other open peer's queue: running the read loop on
"hello" then "world" appends the two Text messages in order, and they sit
at indices i1 < i2 of the resulting queue. -/
theorem ordering_preserved_two_sends (s : ChatState) (addr j : ClientId)
    (u : String) (q : PeerQueue)
    (hnd : (s.peers.map Prod.fst).Nodup)
    (hj : s.lookup j = some q) (hopen : q.closed = false) (hja : j ≠ addr) :
    (readLoop u addr [Except.ok "hello", Except.ok "world"] s).1.lookup j
      = some { closed := false,
               pending := q.pending
                 ++ [Message.new_text u "hello",
                     Message.new_text u "world"] } ∧
    ∃ i1 i2 : Nat, i1 < i2 ∧
      (q.pending ++ [Message.new_text u "hello",
        Message.new_text u "world"])[i1]?
          = some (Message.new_text u "hello") ∧
      (q.pending ++ [Message.new_text u "hello",
        Message.new_text u "world"])[i2]?
          = some (Message.new_text u "world") := by
  constructor
  · have hred : (readLoop u addr [Except.ok "hello", Except.ok "world"] s).1
        = ((s.broadcast (Message.new_text u "hello") addr).1.broadcast
            (Message.new_text u "world") addr).1 := rfl
    have hj' : lookupList s.peers j = some q := hj
    have h1 := broadcast_lookupList_other (Message.new_text u "hello") addr j
      s.peers hnd hja
    rw [hj'] at h1
    have h1' : lookupList
        (s.peers.filterMap (broadcastEntry (Message.new_text u "hello") addr)) j
        = some { closed := false, pending := q.pending
            ++ [Message.new_text u "hello"] } := by
      rw [h1]
      simp [hopen]
    have hnd1 := broadcast_keys_nodup (Message.new_text u "hello") addr
      s.peers hnd
    have h2 := broadcast_lookupList_other (Message.new_text u "world") addr j
      (s.peers.filterMap (broadcastEntry (Message.new_text u "hello") addr))
      hnd1 hja
    rw [h1'] at h2
    rw [hred]
    have h2' : ((s.broadcast (Message.new_text u "hello") addr).1.broadcast
        (Message.new_text u "world") addr).1.lookup j
        = (some ({ closed := false, pending := q.pending
            ++ [Message.new_text u "hello"] } : PeerQueue)).bind
          (fun qq => if qq.closed then none
            else some { qq with pending := qq.pending
              ++ [Message.new_text u "world"] }) := h2
    rw [h2']
    simp [List.append_assoc]
  · refine ⟨q.pending.length, q.pending.length + 1, Nat.lt_succ_self _,
      ?_, ?_⟩
    · rw [List.getElem?_append_right (Nat.le_refl _)]
      simp
    · rw [List.getElem?_append_right (Nat.le_succ_of_le (Nat.le_refl _))]
      simp

/-- Witness for C8: a single open peer receives the hello Text before the
world Text when the handler's loop processes the two lines. -/
theorem ordering_preserved_two_sends_witness :
    (readLoop "alice" 0 [Except.ok "hello", Except.ok "world"]
        onePeerState).1.lookup 1
      = some { closed := false,
               pending := [Message.new_text "alice" "hello",
                           Message.new_text "alice" "world"] } ∧
    ∃ i1 i2 : Nat, i1 < i2 ∧
      (([] : List Message) ++ [Message.new_text "alice" "hello",
        Message.new_text "alice" "world"])[i1]?
          = some (Message.new_text "alice" "hello") ∧
      (([] : List Message) ++ [Message.new_text "alice" "hello",
        Message.new_text "alice" "world"])[i2]?
          = some (Message.new_text "alice" "world") :=
  ordering_preserved_two_sends onePeerState 0 1 "alice"
    { closed := false, pending := [] } (by decide) rfl rfl (by decide)

/-- C9: the writer task spawned by add_peer hands every message it receives
to the transport regardless of earlier write failures — a failed write only
logs and the loop continues — and its loop ends exactly when recv yields
None, i.e. when the queue has been closed. -/
theorem writer_tolerates_write_failures (tr : List (Message × Bool)) :
    writerRun tr = tr.map (fun p => p.1.display) ∧
    (∀ (m : Message) (rest : List (Message × Bool)),
      writerRun ((m, false) :: rest) = m.display :: writerRun rest) ∧
    writerRun [] = [] := by
  refine ⟨?_, fun m rest => rfl, rfl⟩
  induction tr with
  | nil => rfl
  | cons p rest ih =>
    obtain ⟨m, b⟩ := p
    simp [writerRun, ih]

/-- C10: registering an id that is already present succeeds and silently
replaces the entry with the fresh producer — the Peer is returned with the
given username, no duplicate is ever signalled — and afterwards the
registry holds exactly one entry for that id, with every other id's entry
untouched; the displaced old producer is no longer reachable from the
registry. -/
theorem add_peer_replaces_existing (s : ChatState) (addr : ClientId)
    (u : String) (inb : Inbound) :
    (s.add_peer addr u inb).1.lookup addr = some PeerQueue.fresh ∧
    ((s.add_peer addr u inb).1.peers.map Prod.fst).count addr = 1 ∧
    (s.add_peer addr u inb).2.username = u ∧
    ∀ j, j ≠ addr → (s.add_peer addr u inb).1.lookup j = s.lookup j := by
  refine ⟨?_, ?_, rfl, ?_⟩
  · show lookupList ((addr, PeerQueue.fresh)
        :: s.peers.filter (fun p => p.1 != addr)) addr = some PeerQueue.fresh
    rw [lookupList_cons, if_pos rfl]
  · show (((addr, PeerQueue.fresh)
        :: s.peers.filter (fun p => p.1 != addr)).map Prod.fst).count addr = 1
    rw [List.map_cons]
    rw [List.count_cons_self]
    have hz : ((s.peers.filter (fun p => p.1 != addr)).map Prod.fst).count addr
        = 0 := by
      rw [List.count_eq_zero]
      intro hmem
      obtain ⟨p, hp, hfst⟩ := List.mem_map.mp hmem
      have hne := (List.mem_filter.mp hp).2
      rw [hfst] at hne
      simp at hne
    rw [hz]
  · intro j hj
    show lookupList ((addr, PeerQueue.fresh)
        :: s.peers.filter (fun p => p.1 != addr)) j = s.lookup j
    rw [lookupList_cons, if_neg (fun h => hj h.symm)]
    exact removeList_lookup_other s.peers addr j hj

/-- Witness for C10: re-registering id 0 over a stale entry leaves a single
fresh entry for 0 and does not touch peer 1. -/
theorem add_peer_replaces_existing_witness :
    (stalePeerState.add_peer 0 "alice" []).1.lookup 0
        = some PeerQueue.fresh ∧
    ((stalePeerState.add_peer 0 "alice" []).1.peers.map Prod.fst).count 0
        = 1 ∧
    (stalePeerState.add_peer 0 "alice" []).2.username = "alice" ∧
    (stalePeerState.add_peer 0 "alice" []).1.lookup 1
        = stalePeerState.lookup 1 := by
  obtain ⟨h1, h2, h3, h4⟩ :=
    add_peer_replaces_existing stalePeerState 0 "alice" []
  exact ⟨h1, h2, h3, h4 1 (by decide)⟩

end Chat
